import Mathlib

/-!
Verification of the glyph-layout and caching core of `amethyst_ui_legion`
(`src/amethyst_ui/src/renderer/glyphs.rs`), via a shallow embedding.

Modelling conventions:
* `f32` values (glyph positions, advances, UV coordinates) are embedded as
  exact rationals `ℚ`; the claims under study are about the algebraic
  structure of the computations, not float rounding.
* Rust `usize` arithmetic is embedded as `Nat` together with explicit
  wrap-around modulo `2 ^ 64` (`usizeOfInt`, `usizeSub`), matching the
  two's-complement reinterpretation performed by `as usize` casts and by
  wrapping subtraction.
* Strings are embedded at the grapheme level as `List (List Nat)` (a list of
  graphemes, each a list of UTF-8 bytes) where byte offsets matter, and as
  `List Nat` (codepoints) where only per-character glyph lookup matters.
-/

/-- `2 ^ 64`, the modulus of `usize` arithmetic on a 64-bit target. -/
def usizeMod : Nat := 2 ^ 64

/-- The `as usize` cast applied to a signed integer value:
two's-complement reinterpretation modulo `2 ^ 64`. -/
def usizeOfInt (i : Int) : Nat := (i % (usizeMod : Int)).toNat

/-- Wrapping `usize` subtraction `a - b` (release-mode Rust semantics). -/
def usizeSub (a b : Nat) : Nat := (((a : Int) - (b : Int)) % (usizeMod : Int)).toNat

/-! ## Password masking (`password_sections`, glyphs.rs lines 700-711) -/

/-- The UTF-8 bytes of one bullet grapheme `•` (U+2022). -/
def bulletBytes : List Nat := [226, 128, 162]

/-- The bytes of the source constant `PASSWORD_STR`: sixteen bullets,
three bytes each (48 bytes total). -/
def PASSWORD_STR : List Nat :=
  [226, 128, 162, 226, 128, 162, 226, 128, 162, 226, 128, 162,
   226, 128, 162, 226, 128, 162, 226, 128, 162, 226, 128, 162,
   226, 128, 162, 226, 128, 162, 226, 128, 162, 226, 128, 162,
   226, 128, 162, 226, 128, 162, 226, 128, 162, 226, 128, 162]

/-- `PASSWORD_STR_GRAPHEME_COUNT` from the source. -/
def PASSWORD_STR_GRAPHEME_COUNT : Nat := 16

/-- `PASSWORD_CHAR_GRAPHEME_BYTE_COUNT` from the source. -/
def PASSWORD_CHAR_GRAPHEME_BYTE_COUNT : Nat := 3

/-- `password_sections(grapheme_count)`: `full_chunks` whole copies of the
mask string followed by a byte-slice of the first
`remaining_graphemes * 3` bytes of it. -/
def password_sections (grapheme_count : Nat) : List (List Nat) :=
  let full_chunks := grapheme_count / PASSWORD_STR_GRAPHEME_COUNT
  let remaining_graphemes := grapheme_count % PASSWORD_STR_GRAPHEME_COUNT
  List.replicate full_chunks PASSWORD_STR ++
    [PASSWORD_STR.take (remaining_graphemes * PASSWORD_CHAR_GRAPHEME_BYTE_COUNT)]

/-- Parse a byte list as a sequence of whole bullet graphemes, returning the
grapheme count, or `none` if the bytes are not a concatenation of whole
bullet graphemes (i.e. a grapheme was divided). -/
def countBulletGraphemes : List Nat → Option Nat
  | [] => some 0
  | 226 :: 128 :: 162 :: rest => (countBulletGraphemes rest).map (· + 1)
  | _ => none

lemma password_str_eq_join :
    PASSWORD_STR = (List.replicate 16 bulletBytes).flatten := by decide

lemma password_str_take :
    ∀ r : Nat, r < 16 →
      PASSWORD_STR.take (r * 3) = (List.replicate r bulletBytes).flatten := by decide

lemma join_replicate_password_str (q : Nat) :
    (List.replicate q PASSWORD_STR).flatten = (List.replicate (q * 16) bulletBytes).flatten := by
  induction q with
  | zero => rfl
  | succ n ih =>
      rw [List.replicate_succ, List.flatten_cons, ih, password_str_eq_join,
        ← List.flatten_append, ← List.replicate_add, Nat.succ_mul, Nat.add_comm]

lemma countBulletGraphemes_join (n : Nat) :
    countBulletGraphemes ((List.replicate n bulletBytes).flatten) = some n := by
  induction n with
  | zero => rfl
  | succ m ih =>
      rw [List.replicate_succ, List.flatten_cons]
      show countBulletGraphemes (226 :: 128 :: 162 :: (List.replicate m bulletBytes).flatten) = _
      rw [countBulletGraphemes, ih]
      rfl

/-- C2: for every grapheme count `n`, the concatenation of all sections
produced by `password_sections n` is exactly `n` whole bullet graphemes:
it parses cleanly into bullet graphemes (slicing never divides a grapheme)
and the grapheme count is exactly `n`. -/
theorem password_sections_grapheme_exact (n : Nat) :
    countBulletGraphemes ((password_sections n).flatten) = some n := by
  have hjoin : (password_sections n).flatten = (List.replicate n bulletBytes).flatten := by
    show ((List.replicate (n / 16) PASSWORD_STR ++
        [PASSWORD_STR.take (n % 16 * 3)]).flatten) = _
    rw [List.flatten_append, join_replicate_password_str,
      password_str_take (n % 16) (Nat.mod_lt n (by norm_num)),
      List.flatten_cons, List.flatten_nil, List.append_nil, ← List.flatten_append,
      ← List.replicate_add]
    have : n / 16 * 16 + n % 16 = n := by
      rw [Nat.mul_comm]; exact Nat.div_add_mod n 16
    rw [this]
  rw [hjoin]
  exact countBulletGraphemes_join n

/-! ## Password-selection section counts (glyphs.rs lines 250-279)

The `(true, Some(text_editing))` arm computes three per-section grapheme
counts from the cursor position and highlight vector:
```
let start  = cursor_position.min(highlight_position) as usize;
let to_end = cursor_position.max(highlight_position) as usize - start;
let rest   = grapheme_count - to_end - start;
```
All three subtractions are `usize` subtractions (wrapping in release mode,
panicking on underflow in debug mode). -/

/-- The three section grapheme counts `(start, to_end, rest)` computed by the
password-with-selection arm of `build_ui_glyphs_system`. -/
def passwordSelectionCounts (cursor_position highlight_vector : Int)
    (grapheme_count : Nat) : Nat × Nat × Nat :=
  let highlight_position := cursor_position + highlight_vector
  let start := usizeOfInt (min cursor_position highlight_position)
  let to_end := usizeSub (usizeOfInt (max cursor_position highlight_position)) start
  let rest := usizeSub (usizeSub grapheme_count to_end) start
  (start, to_end, rest)

/-! ## Per-entity glyph cache reconciliation (glyphs.rs lines 320-365) -/

/-- A glyph position retained in the per-entity cache
(`crate::text::CachedGlyph`): x, y and horizontal advance. -/
structure CachedGlyph where
  x : ℚ
  y : ℚ
  advance_width : ℚ
deriving DecidableEq

/-- One glyph produced by the layout engine (`glyph_brush` `SectionGlyph`):
its glyph id and its laid-out position. -/
structure SectionGlyph where
  id : Nat
  x : ℚ
  y : ℚ
deriving DecidableEq

/-- The font-metrics provider at a fixed scale (`ab_glyph` `ScaledFont`):
per-codepoint glyph ids, per-glyph-id horizontal advance, ascent, descent. -/
structure ScaledFont where
  glyph_id : Nat → Nat
  h_advance : Nat → ℚ
  ascent : ℚ
  descent : ℚ

/-- The mutable state of the reconciliation loop: the remaining laid-out
glyphs (the iterator, with `last_section_glyph` at its head) and
`last_cached_glyph`. -/
abbrev ReconcileState := List SectionGlyph × Option CachedGlyph

/-- One iteration of the closure mapped over `ui_text.text.chars()`
(glyphs.rs lines 323-362): given the loop state and the next character,
produce the next state and the cached glyph emitted for that character. -/
def reconcileStep (sf : ScaledFont) (st : ReconcileState) (c : Nat) :
    ReconcileState × CachedGlyph :=
  let xy : ℚ × ℚ :=
    match st.2 with
    | some last => (last.x + last.advance_width, last.y)
    | none => (0, 0)
  match st.1 with
  | section_glyph :: rest =>
      if sf.glyph_id c = section_glyph.id then
        let cached : CachedGlyph :=
          { x := section_glyph.x
            y := -section_glyph.y
            advance_width := sf.h_advance section_glyph.id }
        ((rest, some cached), cached)
      else
        let cached : CachedGlyph :=
          { x := xy.1, y := xy.2, advance_width := sf.h_advance (sf.glyph_id c) }
        ((st.1, some cached), cached)
  | [] =>
      let cached : CachedGlyph :=
        { x := xy.1, y := xy.2, advance_width := sf.h_advance (sf.glyph_id c) }
      (([], some cached), cached)

/-- The whole reconciliation walk: map `reconcileStep` over the content's
character sequence, threading the loop state; the list of emitted cached
glyphs is what `cached_glyphs.extend(all_glyphs_iter)` collects. -/
def buildCachedGlyphs (sf : ScaledFont) : List Nat → ReconcileState → List CachedGlyph
  | [], _ => []
  | c :: cs, st =>
      let step := reconcileStep sf st c
      step.2 :: buildCachedGlyphs sf cs step.1

/-- C1: the per-entity glyph cache is rebuilt by a lockstep walk.  On a cache
hit (the character's glyph id equals the next laid-out glyph's id) the cached
entry copies the laid-out glyph's `(x, y, advance)` verbatim with the y sign
flip, and the layout cursor advances (the walk continues on `rest`).  On
divergence the cached entry is synthesized at
`(last cached x + last cached advance, last cached y)` with the diverging
character's own advance from the font metrics, and the layout cursor does not
advance (the walk continues on the unchanged laid-out sequence). -/
theorem reconcile_lockstep_walk (sf : ScaledFont) (c : Nat) (cs : List Nat)
    (sg : SectionGlyph) (rest : List SectionGlyph) (last : Option CachedGlyph)
    (g : CachedGlyph) :
    (sf.glyph_id c = sg.id →
      buildCachedGlyphs sf (c :: cs) (sg :: rest, last) =
        { x := sg.x, y := -sg.y, advance_width := sf.h_advance sg.id } ::
          buildCachedGlyphs sf cs
            (rest,
             some { x := sg.x, y := -sg.y, advance_width := sf.h_advance sg.id })) ∧
    (sf.glyph_id c ≠ sg.id →
      buildCachedGlyphs sf (c :: cs) (sg :: rest, some g) =
        { x := g.x + g.advance_width, y := g.y,
          advance_width := sf.h_advance (sf.glyph_id c) } ::
          buildCachedGlyphs sf cs
            (sg :: rest,
             some { x := g.x + g.advance_width, y := g.y,
                    advance_width := sf.h_advance (sf.glyph_id c) })) := by
  constructor <;> intro h <;> simp [buildCachedGlyphs, reconcileStep, h]

/-- Witness for `reconcile_lockstep_walk`: both the hit branch and the miss
branch evaluated on concrete data. -/
theorem reconcile_lockstep_walk_witness :
    (buildCachedGlyphs ⟨fun c => c, fun i => (i : ℚ), 8, -2⟩ [65] ([⟨65, 3, 5⟩], none) =
      [{ x := 3, y := -5, advance_width := 65 }]) ∧
    (buildCachedGlyphs ⟨fun c => c, fun i => (i : ℚ), 8, -2⟩ [66]
        ([⟨65, 3, 5⟩], some { x := 1, y := 2, advance_width := 4 }) =
      [{ x := 5, y := 2, advance_width := 66 }]) := by
  refine ⟨?_, ?_⟩
  · have h := (reconcile_lockstep_walk ⟨fun c => c, fun i => (i : ℚ), 8, -2⟩ 65 []
      ⟨65, 3, 5⟩ [] none { x := 0, y := 0, advance_width := 0 }).1 (by decide)
    rw [h]; simp [buildCachedGlyphs]
  · have h := (reconcile_lockstep_walk ⟨fun c => c, fun i => (i : ℚ), 8, -2⟩ 66 []
      ⟨65, 3, 5⟩ [] (some { x := 1, y := 2, advance_width := 4 })
      { x := 1, y := 2, advance_width := 4 }).2 (by decide)
    rw [h]; simp [buildCachedGlyphs]; norm_num

/-- C9: when a character diverges (or layout produced no glyph at all) before
any glyph has been cached for the element (`last_cached_glyph` is `None`),
the synthesized position for that first glyph is exactly `(0, 0)` — not the
element's origin — and each subsequent divergent glyph continues from the
previous cached glyph at `(previous x + previous advance, previous y)`. -/
theorem first_divergent_glyph_at_zero (sf : ScaledFont) (c : Nat) (cs : List Nat)
    (sg : SectionGlyph) (rest : List SectionGlyph) (g : CachedGlyph) :
    (buildCachedGlyphs sf (c :: cs) ([], none) =
      { x := 0, y := 0, advance_width := sf.h_advance (sf.glyph_id c) } ::
        buildCachedGlyphs sf cs
          ([], some { x := 0, y := 0, advance_width := sf.h_advance (sf.glyph_id c) })) ∧
    (sf.glyph_id c ≠ sg.id →
      buildCachedGlyphs sf (c :: cs) (sg :: rest, none) =
        { x := 0, y := 0, advance_width := sf.h_advance (sf.glyph_id c) } ::
          buildCachedGlyphs sf cs
            (sg :: rest,
             some { x := 0, y := 0, advance_width := sf.h_advance (sf.glyph_id c) })) ∧
    (sf.glyph_id c ≠ sg.id →
      buildCachedGlyphs sf (c :: cs) (sg :: rest, some g) =
        { x := g.x + g.advance_width, y := g.y,
          advance_width := sf.h_advance (sf.glyph_id c) } ::
          buildCachedGlyphs sf cs
            (sg :: rest,
             some { x := g.x + g.advance_width, y := g.y,
                    advance_width := sf.h_advance (sf.glyph_id c) })) := by
  refine ⟨by simp [buildCachedGlyphs, reconcileStep], ?_, ?_⟩ <;>
    intro h <;> simp [buildCachedGlyphs, reconcileStep, h]

/-- Witness for `first_divergent_glyph_at_zero` on concrete data: a first
divergent character lands at `(0, 0)` and the next one at
`(0 + its advance, 0)`. -/
theorem first_divergent_glyph_at_zero_witness :
    buildCachedGlyphs ⟨fun c => c, fun i => (i : ℚ), 8, -2⟩ [66]
        ([⟨65, 3, 5⟩], none) =
      [{ x := 0, y := 0, advance_width := 66 }] := by
  have h := (first_divergent_glyph_at_zero ⟨fun c => c, fun i => (i : ℚ), 8, -2⟩ 66 []
    ⟨65, 3, 5⟩ [] { x := 0, y := 0, advance_width := 0 }).2.1 (by decide)
  rw [h]; simp [buildCachedGlyphs]

/-- C3 (refuting evaluation): at cursor position 1, highlight vector 0, on an
empty password text (0 graphemes), the third section count `rest` underflows:
`0 - 0 - 1` wraps to `2 ^ 64 - 1` (and panics in a debug build).  The section
counts are not clamped to `[0, 0]` and their sum is not the total grapheme
count. -/
theorem password_selection_counts_underflow :
    passwordSelectionCounts 1 0 0 = (1, 0, 18446744073709551615) ∧
    (passwordSelectionCounts 1 0 0).1 + (passwordSelectionCounts 1 0 0).2.1 +
        (passwordSelectionCounts 1 0 0).2.2 ≠ 0 ∧
    ¬(passwordSelectionCounts 1 0 0).1 ≤ 0 := by
  refine ⟨by decide, by decide, by decide⟩

/-! ## Byte-range selection (`selected_bytes`, glyphs.rs lines 664-686)

A text is embedded as a list of graphemes, each a list of UTF-8 bytes.
`grapheme_indices` yields the byte offset of each grapheme in order. -/

/-- Total byte length of a grapheme list. -/
def byteLen (gs : List (List Nat)) : Nat := (gs.map List.length).sum

/-- The byte offsets produced by `text.grapheme_indices(true)`, starting at
accumulated offset `acc`. -/
def graphemeOffsetsAux : List (List Nat) → Nat → List Nat
  | [], _ => []
  | g :: gs, acc => acc :: graphemeOffsetsAux gs (acc + g.length)

/-- `selected_bytes(text_editing, text)`: the selected byte range of the
text, or `none` for no selection.  `cursor_position` and `highlight_vector`
are the fields of `TextEditing`; iterator `nth` semantics are embedded with
`List.get?`: the first `nth(start)` consumes `start + 1` elements, so the
second `nth(to_end)` reads element `start + 1 + to_end` of the original
sequence, each defaulting to `text.len()` when exhausted. -/
def selected_bytes (cursor_position highlight_vector : Int)
    (gs : List (List Nat)) : Option (Nat × Nat) :=
  if highlight_vector = 0 then none
  else
    let start := usizeOfInt (min cursor_position (cursor_position + highlight_vector))
    let to_end :=
      usizeSub
        (usizeOfInt (max cursor_position (cursor_position + highlight_vector))) start
    let to_end := usizeSub to_end 1
    let idxs := graphemeOffsetsAux gs 0
    let start_byte := (idxs.get? start).getD (byteLen gs)
    let end_byte := (idxs.get? (start + 1 + to_end)).getD (byteLen gs)
    if start_byte = end_byte then none else some (start_byte, end_byte)

/-- The colored runs built for a non-password text element with editing state
(glyphs.rs lines 199-237): three byte-sliced runs around the selection, or a
single base-colored run when `selected_bytes` is `none`.  Colors are an
arbitrary tag type. -/
def text_runs {α : Type} (cursor_position highlight_vector : Int)
    (gs : List (List Nat)) (base_color selected_color : α) :
    List (List Nat × α) :=
  let text := gs.flatten
  match selected_bytes cursor_position highlight_vector gs with
  | some (start, stop) =>
      [(text.take start, base_color),
       ((text.drop start).take (stop - start), selected_color),
       (text.drop stop, base_color)]
  | none => [(text, base_color)]

/-- `highlighted_glyphs_range(text_editing, ui_text)` (glyphs.rs lines
688-698): per-endpoint `as usize` casts, then `min`/`max` ordering, each
clamped to the glyph cache length. -/
def highlighted_glyphs_range (cursor_position highlight_vector : Int)
    (glyph_count : Nat) : Nat × Nat :=
  let cursor := usizeOfInt cursor_position
  let highlight := usizeOfInt (cursor_position + highlight_vector)
  (min (min cursor highlight) glyph_count, min (max cursor highlight) glyph_count)

/-! ### Properties of the grapheme-offset sequence -/

lemma byteLen_cons (g : List Nat) (gs : List (List Nat)) :
    byteLen (g :: gs) = g.length + byteLen gs := by
  simp [byteLen]

lemma graphemeOffsetsAux_length (gs : List (List Nat)) (acc : Nat) :
    (graphemeOffsetsAux gs acc).length = gs.length := by
  induction gs generalizing acc with
  | nil => rfl
  | cons g gs ih => simp [graphemeOffsetsAux, ih]

lemma graphemeOffsetsAux_mem_bounds (gs : List (List Nat)) (acc : Nat) :
    ∀ x ∈ graphemeOffsetsAux gs acc, acc ≤ x ∧ x ≤ acc + byteLen gs := by
  induction gs generalizing acc with
  | nil => intro x hx; simp [graphemeOffsetsAux] at hx
  | cons g gs ih =>
      intro x hx
      rw [graphemeOffsetsAux, List.mem_cons] at hx
      rcases hx with rfl | hx
      · exact ⟨le_refl _, Nat.le_add_right _ _⟩
      · have h := ih (acc + g.length) x hx
        refine ⟨le_trans (Nat.le_add_right _ _) h.1, ?_⟩
        rw [byteLen_cons]
        omega

lemma graphemeOffsetsAux_sorted (gs : List (List Nat)) (acc : Nat) :
    (graphemeOffsetsAux gs acc).Sorted (· ≤ ·) := by
  induction gs generalizing acc with
  | nil => exact List.sorted_nil
  | cons g gs ih =>
      rw [graphemeOffsetsAux, List.sorted_cons]
      refine ⟨fun b hb => ?_, ih _⟩
      exact le_trans (Nat.le_add_right _ _)
        ((graphemeOffsetsAux_mem_bounds gs (acc + g.length) b hb).1)

lemma offsets_getD_le (gs : List (List Nat)) (i : Nat) :
    ((graphemeOffsetsAux gs 0).get? i).getD (byteLen gs) ≤ byteLen gs := by
  cases h : (graphemeOffsetsAux gs 0).get? i with
  | none => simp
  | some x =>
      have hx : x ∈ graphemeOffsetsAux gs 0 := List.get?_mem h
      have := (graphemeOffsetsAux_mem_bounds gs 0 x hx).2
      simpa using this

lemma offsets_getD_mem (gs : List (List Nat)) (i : Nat) :
    ((graphemeOffsetsAux gs 0).get? i).getD (byteLen gs) ∈ graphemeOffsetsAux gs 0 ∨
      ((graphemeOffsetsAux gs 0).get? i).getD (byteLen gs) = byteLen gs := by
  cases h : (graphemeOffsetsAux gs 0).get? i with
  | none => right; simp
  | some x => left; simpa using List.get?_mem h

lemma offsets_getD_mono (gs : List (List Nat)) {i j : Nat} (hij : i ≤ j) :
    ((graphemeOffsetsAux gs 0).get? i).getD (byteLen gs) ≤
      ((graphemeOffsetsAux gs 0).get? j).getD (byteLen gs) := by
  by_cases hj : j < (graphemeOffsetsAux gs 0).length
  · have hi : i < (graphemeOffsetsAux gs 0).length := lt_of_le_of_lt hij hj
    rw [List.get?_eq_get hi, List.get?_eq_get hj]
    simp only [Option.getD_some]
    exact (graphemeOffsetsAux_sorted gs 0).rel_get_of_le
      (show (⟨i, hi⟩ : Fin _) ≤ ⟨j, hj⟩ from hij)
  · rw [List.get?_eq_none.2 (le_of_not_lt hj)]
    simp only [Option.getD_none]
    exact offsets_getD_le gs i

lemma usizeOfInt_of_nonneg {i : Int} (h0 : 0 ≤ i) (h1 : i < 2 ^ 64) :
    usizeOfInt i = i.toNat := by
  unfold usizeOfInt usizeMod
  push_cast
  omega

lemma usizeOfInt_of_neg {i : Int} (h0 : -(2 ^ 63) ≤ i) (h1 : i < 0) :
    2 ^ 63 ≤ usizeOfInt i := by
  unfold usizeOfInt usizeMod
  push_cast
  omega

/-- C4 (counterexample): an inverted selection (negative highlight vector) is
NOT normalized to no selection.  With text "abcd", cursor 2 and highlight
vector -2, `selected_bytes` returns the real byte range `[0, 2)`, the run
split contains a selected-color run with nonempty text, and the highlighted
glyph range is nonempty. -/
theorem selected_bytes_inverted_counterexample :
    selected_bytes 2 (-2) [[97], [98], [99], [100]] = some (0, 2) ∧
    ([97, 98], 1) ∈ text_runs 2 (-2) [[97], [98], [99], [100]] (0 : Nat) 1 ∧
    (highlighted_glyphs_range 2 (-2) 4).1 ≠ (highlighted_glyphs_range 2 (-2) 4).2 := by
  refine ⟨by decide, by decide, by decide⟩

/-- C4 (amended): a zero highlight vector yields no selection (no
selected-color run, empty highlighted glyph range); a selection fully out of
the text's bounds (entirely at-or-before 0, or entirely at-or-past the
grapheme count) yields no selection; whenever `selected_bytes` does return a
range, its endpoints are ordered (`start < stop`), clamped to the content
byte length, and lie on grapheme boundaries, so the three-way byte slicing
never panics.  An inverted (negative-vector) selection is reordered by
`min`/`max`, not collapsed.  The bounds on cursor and highlight position are
the `isize` range (the source's `as usize` casts reinterpret within it). -/
theorem selected_bytes_normalization
    (cursor hv : Int) (gs : List (List Nat))
    (hc1 : -(2 ^ 63) ≤ cursor) (hc2 : cursor < 2 ^ 63)
    (hh1 : -(2 ^ 63) ≤ cursor + hv) (hh2 : cursor + hv < 2 ^ 63)
    (hcount : gs.length < 2 ^ 63) :
    (hv = 0 → selected_bytes cursor hv gs = none ∧
      ∀ n, (highlighted_glyphs_range cursor hv n).1 =
        (highlighted_glyphs_range cursor hv n).2) ∧
    (max cursor (cursor + hv) ≤ 0 ∨ (gs.length : Int) ≤ min cursor (cursor + hv) →
      selected_bytes cursor hv gs = none) ∧
    (∀ start stop, selected_bytes cursor hv gs = some (start, stop) →
      start < stop ∧ stop ≤ byteLen gs ∧
      (start ∈ graphemeOffsetsAux gs 0 ∨ start = byteLen gs) ∧
      (stop ∈ graphemeOffsetsAux gs 0 ∨ stop = byteLen gs)) ∧
    (∀ base sel : Nat, selected_bytes cursor hv gs = none →
      text_runs cursor hv gs base sel = [(gs.flatten, base)]) := by
  have hlen : (graphemeOffsetsAux gs 0).length = gs.length :=
    graphemeOffsetsAux_length gs 0
  refine ⟨?_, ?_, ?_, ?_⟩
  · intro h
    constructor
    · simp [selected_bytes, h]
    · intro n
      simp [highlighted_glyphs_range, h]
  · intro hob
    by_cases h0 : hv = 0
    · simp [selected_bytes, h0]
    · have hstart : (graphemeOffsetsAux gs 0).length ≤
          usizeOfInt (min cursor (cursor + hv)) := by
        rcases hob with hneg | hbig
        · have hminneg : min cursor (cursor + hv) < 0 := by
            rcases lt_or_le cursor (cursor + hv) with hlt | hle
            · have : cursor < cursor + hv := hlt
              calc min cursor (cursor + hv) ≤ cursor := min_le_left _ _
                _ < 0 := by
                  have := le_max_left cursor (cursor + hv)
                  omega
            · have hmx : max cursor (cursor + hv) = cursor := max_eq_left hle
              have hmn : min cursor (cursor + hv) = cursor + hv := min_eq_right hle
              rw [hmn]
              rw [hmx] at hneg
              rcases eq_or_lt_of_le hle with heq | hlt
              · exact absurd (by omega : hv = 0) h0
              · omega
          have := usizeOfInt_of_neg (by omega) hminneg
          omega
        · have hminpos : (0 : Int) ≤ min cursor (cursor + hv) := by
            have : (0 : Int) ≤ (gs.length : Nat) := by positivity
            omega
          rw [usizeOfInt_of_nonneg hminpos (by omega)]
          omega
      simp only [selected_bytes, if_neg h0]
      rw [List.get?_eq_none.2 hstart, List.get?_eq_none.2 (le_trans hstart (by omega))]
      simp
  · intro start stop hsome
    by_cases h0 : hv = 0
    · simp [selected_bytes, h0] at hsome
    · simp only [selected_bytes, if_neg h0] at hsome
      set s := usizeOfInt (min cursor (cursor + hv)) with hs
      set t := usizeSub (usizeSub
        (usizeOfInt (max cursor (cursor + hv))) s) 1 with ht
      set sb := (((graphemeOffsetsAux gs 0).get? s).getD (byteLen gs)) with hsb
      set eb := (((graphemeOffsetsAux gs 0).get? (s + 1 + t)).getD (byteLen gs)) with heb
      by_cases heq : sb = eb
      · simp [heq] at hsome
      · simp only [if_neg heq] at hsome
        have h1 : (sb, eb) = (start, stop) := Option.some.inj hsome
        have hst : sb = start := congrArg Prod.fst h1
        have hen : eb = stop := congrArg Prod.snd h1
        subst hst
        subst hen
        have hmono : sb ≤ eb := offsets_getD_mono gs (by omega)
        refine ⟨lt_of_le_of_ne hmono heq, ?_, ?_, ?_⟩
        · exact offsets_getD_le gs (s + 1 + t)
        · exact offsets_getD_mem gs s
        · exact offsets_getD_mem gs (s + 1 + t)
  · intro base sel hnone
    simp [text_runs, hnone]

/-- Witness for `selected_bytes_normalization` on concrete data: a zero
highlight vector gives no selection and an empty highlighted glyph range. -/
theorem selected_bytes_normalization_witness :
    selected_bytes 0 0 [[97]] = none ∧
    ∀ n, (highlighted_glyphs_range 0 0 n).1 = (highlighted_glyphs_range 0 0 n).2 :=
  (selected_bytes_normalization 0 0 [[97]] (by norm_num) (by norm_num)
    (by norm_num) (by norm_num) (by norm_num)).1 rfl

/-! ## Draw geometry (`UiArgs`, cursor and selection quads) -/

/-- One renderable quad (`renderer::UiArgs`). -/
structure UiArgs where
  position : ℚ × ℚ
  dimensions : ℚ × ℚ
  tex_coords_bounds : ℚ × ℚ × ℚ × ℚ
  color : ℚ × ℚ × ℚ × ℚ
  color_bias : ℚ × ℚ × ℚ × ℚ
deriving DecidableEq

/-- The element's pixel-space bounding box (`UiTransform`). -/
structure UiTransform where
  pixel_x : ℚ
  pixel_y : ℚ
  pixel_width : ℚ
  pixel_height : ℚ

/-- The parts of `UiText` the draw-geometry functions read: the per-entity
glyph cache and the element's normalized alignment offset
(`ui_text.align.normalized_offset()`). -/
structure UiText where
  cached_glyphs : List CachedGlyph
  norm_offset : ℚ × ℚ

/-- The per-entity render geometry written back to the element
(`UiGlyphs`). -/
structure UiGlyphs where
  vertices : List UiArgs
  selection_vertices : List UiArgs
  cursor_position : ℚ × ℚ
  height : ℚ
  space_width : ℚ

/-- `update_cursor_position` (glyphs.rs lines 645-662), returning the new
`cursor_position` value. -/
def update_cursor_position (ui_text : UiText) (transform : UiTransform)
    (cursor_position : Nat) (offset : ℚ) : ℚ × ℚ :=
  match ui_text.cached_glyphs.get? cursor_position with
  | some glyph => (glyph.x, glyph.y + offset)
  | none =>
      match ui_text.cached_glyphs.getLast? with
      | some glyph => (glyph.x + glyph.advance_width, glyph.y + offset)
      | none =>
          (transform.pixel_x + transform.pixel_width * ui_text.norm_offset.1,
           transform.pixel_y + transform.pixel_height * ui_text.norm_offset.2)

/-- The selection quads built in the `Draw` branch (glyphs.rs lines 512-535):
one `UiArgs` per cached glyph in the highlighted range, positioned at the
glyph plus half its advance, sized `(advance, height)`. -/
def selectionQuads (cursor_position highlight_vector : Int) (ui_text : UiText)
    (offset height : ℚ) (color : ℚ × ℚ × ℚ × ℚ) : List UiArgs :=
  let r := highlighted_glyphs_range cursor_position highlight_vector
    ui_text.cached_glyphs.length
  ((ui_text.cached_glyphs.drop r.1).take (r.2 - r.1)).map fun g =>
    { position := (g.x + g.advance_width / 2, g.y + offset)
      dimensions := (g.advance_width, height)
      tex_coords_bounds := (0, 0, 1, 1)
      color := color
      color_bias := (0, 0, 0, 0) }

/-- The `Ok(BrushAction::ReDraw)` branch of `build_ui_glyphs_system`
(glyphs.rs lines 556-585), acting on one element that has both editing state
and glyph data: `height`, `space_width` and `cursor_position` are recomputed;
nothing else in `UiGlyphs` is touched. -/
def redrawUpdate (glyphs : UiGlyphs) (ui_text : UiText) (transform : UiTransform)
    (cursor_position : Int) (sf : ScaledFont) : UiGlyphs :=
  let height := sf.ascent - sf.descent
  let offset := (sf.ascent + sf.descent) / 2
  { glyphs with
      height := height
      space_width := sf.h_advance (sf.glyph_id 32)
      cursor_position :=
        update_cursor_position ui_text transform (usizeOfInt cursor_position) offset }

/-- C6: the cursor is drawn at the cached glyph at the cursor's index when one
exists; at end-of-text (index equals the cache length, cache non-empty) at
the last glyph's x plus its advance; and for an empty cache at the element's
bounds origin adjusted by the alignment offset. -/
theorem cursor_position_cases (ui_text : UiText) (transform : UiTransform)
    (cursor : Nat) (offset : ℚ) :
    (∀ h : cursor < ui_text.cached_glyphs.length,
      update_cursor_position ui_text transform cursor offset =
        ((ui_text.cached_glyphs.get ⟨cursor, h⟩).x,
         (ui_text.cached_glyphs.get ⟨cursor, h⟩).y + offset)) ∧
    (∀ h : ui_text.cached_glyphs ≠ [],
      cursor = ui_text.cached_glyphs.length →
      update_cursor_position ui_text transform cursor offset =
        ((ui_text.cached_glyphs.getLast h).x +
           (ui_text.cached_glyphs.getLast h).advance_width,
         (ui_text.cached_glyphs.getLast h).y + offset)) ∧
    (ui_text.cached_glyphs = [] →
      update_cursor_position ui_text transform cursor offset =
        (transform.pixel_x + transform.pixel_width * ui_text.norm_offset.1,
         transform.pixel_y + transform.pixel_height * ui_text.norm_offset.2)) := by
  refine ⟨?_, ?_, ?_⟩
  · intro h
    rw [update_cursor_position, List.get?_eq_get h]
  · intro h hlen
    rw [update_cursor_position, List.get?_eq_none.2 (le_of_eq hlen.symm),
      List.getLast?_eq_getLast_of_ne_nil h]
  · intro h
    rw [update_cursor_position]
    simp [h]

/-- Witness for `cursor_position_cases`: all three branches on concrete
data. -/
theorem cursor_position_cases_witness :
    (update_cursor_position ⟨[⟨1, 2, 3⟩], (0, 0)⟩ ⟨0, 0, 0, 0⟩ 0 7 = (1, 2 + 7)) ∧
    (update_cursor_position ⟨[⟨1, 2, 3⟩], (0, 0)⟩ ⟨0, 0, 0, 0⟩ 1 7 = (1 + 3, 2 + 7)) ∧
    (update_cursor_position ⟨[], (2, 3)⟩ ⟨5, 7, 11, 13⟩ 0 7 =
      (5 + 11 * 2, 7 + 13 * 3)) := by
  refine ⟨?_, ?_, ?_⟩
  · exact (cursor_position_cases ⟨[⟨1, 2, 3⟩], (0, 0)⟩ ⟨0, 0, 0, 0⟩ 0 7).1
      (by decide)
  · exact (cursor_position_cases ⟨[⟨1, 2, 3⟩], (0, 0)⟩ ⟨0, 0, 0, 0⟩ 1 7).2.1
      (by decide) rfl
  · exact (cursor_position_cases ⟨[], (2, 3)⟩ ⟨5, 7, 11, 13⟩ 0 7).2.2 rfl

/-- C10: any cursor index strictly greater than the glyph-cache length, on a
non-empty cache, is silently snapped to the end-of-text position: the last
glyph's x plus its advance. -/
theorem cursor_out_of_range_snaps (ui_text : UiText) (transform : UiTransform)
    (cursor : Nat) (offset : ℚ)
    (h1 : ui_text.cached_glyphs.length < cursor)
    (h2 : ui_text.cached_glyphs ≠ []) :
    update_cursor_position ui_text transform cursor offset =
      ((ui_text.cached_glyphs.getLast h2).x +
         (ui_text.cached_glyphs.getLast h2).advance_width,
       (ui_text.cached_glyphs.getLast h2).y + offset) := by
  rw [update_cursor_position, List.get?_eq_none.2 (le_of_lt h1),
    List.getLast?_eq_getLast_of_ne_nil h2]

/-- Witness for `cursor_out_of_range_snaps`: cursor index 5 on a one-glyph
cache still lands at last x plus advance. -/
theorem cursor_out_of_range_snaps_witness :
    update_cursor_position ⟨[⟨1, 2, 3⟩], (0, 0)⟩ ⟨0, 0, 0, 0⟩ 5 7 = (1 + 3, 2 + 7) :=
  cursor_out_of_range_snaps ⟨[⟨1, 2, 3⟩], (0, 0)⟩ ⟨0, 0, 0, 0⟩ 5 7
    (by decide) (by decide)

/-- C7 (counterexample): an inverted raw selection range (`b < a` before
normalization) does NOT yield zero selection quads.  With cursor 2, highlight
vector -2 and a four-glyph cache, `highlighted_glyphs_range` min/max-reorders
the raw range into `[0, 2)` and two quads are emitted. -/
theorem selection_quads_inverted_counterexample :
    highlighted_glyphs_range 2 (-2) 4 = (0, 2) ∧
    (selectionQuads 2 (-2)
        ⟨[⟨0, 0, 1⟩, ⟨1, 0, 1⟩, ⟨2, 0, 1⟩, ⟨3, 0, 1⟩], (0, 0)⟩ 3 10
        (0, 0, 0, 1)).length = 2 ∧
    (selectionQuads 2 (-2)
        ⟨[⟨0, 0, 1⟩, ⟨1, 0, 1⟩, ⟨2, 0, 1⟩, ⟨3, 0, 1⟩], (0, 0)⟩ 3 10
        (0, 0, 0, 1)).length ≠ 0 := by
  refine ⟨by decide, by decide, by decide⟩

/-- C7 (amended): the highlighted glyph range `(a, b)` always satisfies
`a ≤ b ≤ glyph-cache length`; exactly `b - a` selection quads are emitted
(zero when `a = b`, e.g. for a zero highlight vector); an inverted raw range
(`b < a` before normalization) is `min`/`max`-reordered into the
corresponding real range, so it yields that range's quad count, not zero;
and the emitted quads' widths are, glyph for glyph, the advances of the
glyphs in the highlighted range. -/
theorem selection_quads_count_and_width (cursor_position highlight_vector : Int)
    (ui_text : UiText) (offset height : ℚ) (color : ℚ × ℚ × ℚ × ℚ) :
    (highlighted_glyphs_range cursor_position highlight_vector
        ui_text.cached_glyphs.length).1 ≤
      (highlighted_glyphs_range cursor_position highlight_vector
        ui_text.cached_glyphs.length).2 ∧
    (highlighted_glyphs_range cursor_position highlight_vector
        ui_text.cached_glyphs.length).2 ≤ ui_text.cached_glyphs.length ∧
    (selectionQuads cursor_position highlight_vector ui_text offset height
        color).length =
      (highlighted_glyphs_range cursor_position highlight_vector
          ui_text.cached_glyphs.length).2 -
        (highlighted_glyphs_range cursor_position highlight_vector
          ui_text.cached_glyphs.length).1 ∧
    (selectionQuads cursor_position highlight_vector ui_text offset height
        color).map (fun q => q.dimensions.1) =
      ((ui_text.cached_glyphs.drop
          (highlighted_glyphs_range cursor_position highlight_vector
            ui_text.cached_glyphs.length).1).take
        ((highlighted_glyphs_range cursor_position highlight_vector
            ui_text.cached_glyphs.length).2 -
          (highlighted_glyphs_range cursor_position highlight_vector
            ui_text.cached_glyphs.length).1)).map
        (fun g => g.advance_width) := by
  set L := ui_text.cached_glyphs.length with hL
  have h1 : (highlighted_glyphs_range cursor_position highlight_vector L).1 ≤
      (highlighted_glyphs_range cursor_position highlight_vector L).2 := by
    exact min_le_min (min_le_max) (le_refl L)
  have h2 : (highlighted_glyphs_range cursor_position highlight_vector L).2 ≤ L :=
    min_le_right _ _
  refine ⟨h1, h2, ?_, ?_⟩
  · simp only [selectionQuads, List.length_map, List.length_take, List.length_drop,
      ← hL]
    omega
  · simp only [selectionQuads, List.map_map]
    rfl

/-- C5 (counterexample): on `Redraw`, the selection quads are NOT recomputed
from the current element state.  A stale empty selection-vertex list stays
empty after `redrawUpdate` even though the current element state (one cached
glyph, selection covering it) yields one selection quad. -/
theorem redraw_counterexample :
    (redrawUpdate ⟨[], [], (0, 0), 0, 0⟩ ⟨[⟨0, 0, 1⟩], (0, 0)⟩ ⟨0, 0, 0, 0⟩ 0
        ⟨fun c => c, fun _ => 1, 8, -2⟩).selection_vertices = [] ∧
    selectionQuads 0 1 ⟨[⟨0, 0, 1⟩], (0, 0)⟩ 3 10 (0, 0, 0, 1) ≠ [] := by
  refine ⟨rfl, by decide⟩

/-- C5 (amended): on `Redraw`, every element's glyph vertex list and
selection vertex list are left unchanged; only the geometry that does not
depend on atlas pixels and is not a vertex list — the cursor position, the
line height and the space width — is recomputed from the current element
state. -/
theorem redraw_preserves_vertex_lists (glyphs : UiGlyphs) (ui_text : UiText)
    (transform : UiTransform) (cursor_position : Int) (sf : ScaledFont) :
    (redrawUpdate glyphs ui_text transform cursor_position sf).vertices =
      glyphs.vertices ∧
    (redrawUpdate glyphs ui_text transform cursor_position sf).selection_vertices =
      glyphs.selection_vertices ∧
    (redrawUpdate glyphs ui_text transform cursor_position sf).cursor_position =
      update_cursor_position ui_text transform (usizeOfInt cursor_position)
        ((sf.ascent + sf.descent) / 2) ∧
    (redrawUpdate glyphs ui_text transform cursor_position sf).height =
      sf.ascent - sf.descent ∧
    (redrawUpdate glyphs ui_text transform cursor_position sf).space_width =
      sf.h_advance (sf.glyph_id 32) :=
  ⟨rfl, rfl, rfl, rfl, rfl⟩

/-! ## Texture-coordinate clamping (glyphs.rs lines 410-467)

The geometry emitter clamps the rasterized pixel box `pixel_coords` to the
logical glyph `bounds`, one edge at a time in source order (max x, min x,
max y, min y), rescaling the corresponding texture-coordinate edge by the
retained fraction of the pixel span at the time the edge is processed. -/

/-- A 2D point with rational coordinates. -/
structure Pt where
  x : ℚ
  y : ℚ
deriving DecidableEq

/-- An axis-aligned box given by its min and max corners. -/
structure Box where
  min : Pt
  max : Pt
deriving DecidableEq

/-- The `coords_max_x > bounds_max_x` branch: clamp the right pixel edge and
rescale `uv.max.x` by the retained fraction of the (pre-clamp) width. -/
def clampMaxX (bounds pc uv : Box) : Box × Box :=
  if bounds.max.x < pc.max.x then
    let old_width := pc.max.x - pc.min.x
    let pc2 : Box := ⟨pc.min, ⟨bounds.max.x, pc.max.y⟩⟩
    let uv2 : Box :=
      ⟨uv.min,
       ⟨uv.min.x + (uv.max.x - uv.min.x) * (pc2.max.x - pc2.min.x) / old_width,
        uv.max.y⟩⟩
    (pc2, uv2)
  else (pc, uv)

/-- The `coords_min_x < bounds_min_x` branch: clamp the left pixel edge and
rescale `uv.min.x` by the retained fraction of the current width. -/
def clampMinX (bounds pc uv : Box) : Box × Box :=
  if pc.min.x < bounds.min.x then
    let old_width := pc.max.x - pc.min.x
    let pc2 : Box := ⟨⟨bounds.min.x, pc.min.y⟩, pc.max⟩
    let uv2 : Box :=
      ⟨⟨uv.max.x - (uv.max.x - uv.min.x) * (pc2.max.x - pc2.min.x) / old_width,
        uv.min.y⟩,
       uv.max⟩
    (pc2, uv2)
  else (pc, uv)

/-- The `coords_max_y > bounds_max_y` branch. -/
def clampMaxY (bounds pc uv : Box) : Box × Box :=
  if bounds.max.y < pc.max.y then
    let old_height := pc.max.y - pc.min.y
    let pc2 : Box := ⟨pc.min, ⟨pc.max.x, bounds.max.y⟩⟩
    let uv2 : Box :=
      ⟨uv.min,
       ⟨uv.max.x,
        uv.min.y + (uv.max.y - uv.min.y) * (pc2.max.y - pc2.min.y) / old_height⟩⟩
    (pc2, uv2)
  else (pc, uv)

/-- The `coords_min_y < bounds_min_y` branch. -/
def clampMinY (bounds pc uv : Box) : Box × Box :=
  if pc.min.y < bounds.min.y then
    let old_height := pc.max.y - pc.min.y
    let pc2 : Box := ⟨⟨pc.min.x, bounds.min.y⟩, pc.max⟩
    let uv2 : Box :=
      ⟨⟨uv.min.x,
        uv.max.y - (uv.max.y - uv.min.y) * (pc2.max.y - pc2.min.y) / old_height⟩,
       uv.max⟩
    (pc2, uv2)
  else (pc, uv)

/-- The full edge-clamping pass of the geometry emitter, in source order. -/
def clampGlyphBox (bounds pc uv : Box) : Box × Box :=
  let s1 := clampMaxX bounds pc uv
  let s2 := clampMinX bounds s1.1 s1.2
  let s3 := clampMaxY bounds s2.1 s2.2
  clampMinY bounds s3.1 s3.2

/-- C8: whenever the pixel box exceeds the logical bounds on a side (at the
time that side's clamp step runs — `clampGlyphBox` composes the four steps in
source order, and each is quantified over an arbitrary intermediate state
here), the texture-coordinate edge on that side is rescaled to exactly the
retained fraction of the pixel span, and in particular strictly shrinks — no
clamped pixel edge keeps its unscaled UV.  Nondegeneracy hypotheses: the
pixel span and the UV span on the affected axis are positive. -/
theorem uv_clamp_proportional (bounds pc uv : Box) :
    (bounds.max.x < pc.max.x → pc.min.x < pc.max.x → uv.min.x < uv.max.x →
      (clampMaxX bounds pc uv).2.max.x =
          uv.min.x + (uv.max.x - uv.min.x) *
            ((bounds.max.x - pc.min.x) / (pc.max.x - pc.min.x)) ∧
        (clampMaxX bounds pc uv).2.max.x < uv.max.x) ∧
    (pc.min.x < bounds.min.x → pc.min.x < pc.max.x → uv.min.x < uv.max.x →
      (clampMinX bounds pc uv).2.min.x =
          uv.max.x - (uv.max.x - uv.min.x) *
            ((pc.max.x - bounds.min.x) / (pc.max.x - pc.min.x)) ∧
        uv.min.x < (clampMinX bounds pc uv).2.min.x) ∧
    (bounds.max.y < pc.max.y → pc.min.y < pc.max.y → uv.min.y < uv.max.y →
      (clampMaxY bounds pc uv).2.max.y =
          uv.min.y + (uv.max.y - uv.min.y) *
            ((bounds.max.y - pc.min.y) / (pc.max.y - pc.min.y)) ∧
        (clampMaxY bounds pc uv).2.max.y < uv.max.y) ∧
    (pc.min.y < bounds.min.y → pc.min.y < pc.max.y → uv.min.y < uv.max.y →
      (clampMinY bounds pc uv).2.min.y =
          uv.max.y - (uv.max.y - uv.min.y) *
            ((pc.max.y - bounds.min.y) / (pc.max.y - pc.min.y)) ∧
        uv.min.y < (clampMinY bounds pc uv).2.min.y) ∧
    clampGlyphBox bounds pc uv =
      (let s1 := clampMaxX bounds pc uv
       let s2 := clampMinX bounds s1.1 s1.2
       let s3 := clampMaxY bounds s2.1 s2.2
       clampMinY bounds s3.1 s3.2) := by
  refine ⟨?_, ?_, ?_, ?_, rfl⟩
  · intro h1 h2 h3
    have hw : (0 : ℚ) < pc.max.x - pc.min.x := by linarith
    have hfrac : (bounds.max.x - pc.min.x) / (pc.max.x - pc.min.x) < 1 :=
      (div_lt_one hw).2 (by linarith)
    constructor
    · simp only [clampMaxX, if_pos h1]
      rw [mul_div_assoc]
    · simp only [clampMaxX, if_pos h1]
      rw [mul_div_assoc]
      nlinarith
  · intro h1 h2 h3
    have hw : (0 : ℚ) < pc.max.x - pc.min.x := by linarith
    have hfrac : (pc.max.x - bounds.min.x) / (pc.max.x - pc.min.x) < 1 :=
      (div_lt_one hw).2 (by linarith)
    constructor
    · simp only [clampMinX, if_pos h1]
      rw [mul_div_assoc]
    · simp only [clampMinX, if_pos h1]
      rw [mul_div_assoc]
      nlinarith
  · intro h1 h2 h3
    have hw : (0 : ℚ) < pc.max.y - pc.min.y := by linarith
    have hfrac : (bounds.max.y - pc.min.y) / (pc.max.y - pc.min.y) < 1 :=
      (div_lt_one hw).2 (by linarith)
    constructor
    · simp only [clampMaxY, if_pos h1]
      rw [mul_div_assoc]
    · simp only [clampMaxY, if_pos h1]
      rw [mul_div_assoc]
      nlinarith
  · intro h1 h2 h3
    have hw : (0 : ℚ) < pc.max.y - pc.min.y := by linarith
    have hfrac : (pc.max.y - bounds.min.y) / (pc.max.y - pc.min.y) < 1 :=
      (div_lt_one hw).2 (by linarith)
    constructor
    · simp only [clampMinY, if_pos h1]
      rw [mul_div_assoc]
    · simp only [clampMinY, if_pos h1]
      rw [mul_div_assoc]
      nlinarith

/-- Witness for `uv_clamp_proportional`: a pixel box overflowing the bounds
on all four sides, with UV box `[0,1] × [0,1]`; every clamped UV edge moves
strictly inward. -/
theorem uv_clamp_proportional_witness :
    (clampMaxX ⟨⟨0, 0⟩, ⟨10, 10⟩⟩ ⟨⟨-2, -4⟩, ⟨12, 16⟩⟩ ⟨⟨0, 0⟩, ⟨1, 1⟩⟩).2.max.x < 1 ∧
    (0 : ℚ) <
      (clampMinX ⟨⟨0, 0⟩, ⟨10, 10⟩⟩ ⟨⟨-2, -4⟩, ⟨12, 16⟩⟩ ⟨⟨0, 0⟩, ⟨1, 1⟩⟩).2.min.x ∧
    (clampMaxY ⟨⟨0, 0⟩, ⟨10, 10⟩⟩ ⟨⟨-2, -4⟩, ⟨12, 16⟩⟩ ⟨⟨0, 0⟩, ⟨1, 1⟩⟩).2.max.y < 1 ∧
    (0 : ℚ) <
      (clampMinY ⟨⟨0, 0⟩, ⟨10, 10⟩⟩ ⟨⟨-2, -4⟩, ⟨12, 16⟩⟩ ⟨⟨0, 0⟩, ⟨1, 1⟩⟩).2.min.y := by
  refine ⟨?_, ?_, ?_, ?_⟩
  · exact ((uv_clamp_proportional ⟨⟨0, 0⟩, ⟨10, 10⟩⟩ ⟨⟨-2, -4⟩, ⟨12, 16⟩⟩
      ⟨⟨0, 0⟩, ⟨1, 1⟩⟩).1 (by norm_num) (by norm_num) (by norm_num)).2
  · exact ((uv_clamp_proportional ⟨⟨0, 0⟩, ⟨10, 10⟩⟩ ⟨⟨-2, -4⟩, ⟨12, 16⟩⟩
      ⟨⟨0, 0⟩, ⟨1, 1⟩⟩).2.1 (by norm_num) (by norm_num) (by norm_num)).2
  · exact ((uv_clamp_proportional ⟨⟨0, 0⟩, ⟨10, 10⟩⟩ ⟨⟨-2, -4⟩, ⟨12, 16⟩⟩
      ⟨⟨0, 0⟩, ⟨1, 1⟩⟩).2.2.1 (by norm_num) (by norm_num) (by norm_num)).2
  · exact ((uv_clamp_proportional ⟨⟨0, 0⟩, ⟨10, 10⟩⟩ ⟨⟨-2, -4⟩, ⟨12, 16⟩⟩
      ⟨⟨0, 0⟩, ⟨1, 1⟩⟩).2.2.2.1 (by norm_num) (by norm_num) (by norm_num)).2
